import Mathlib

/-
Verification of the DICOM data-set tokenizer (`parser/src/dataset.rs`).

The tokenizer (`DataSetReader`) is embedded as a pure step function over an
explicit state record.  The external `Parse` capability (header / item-header /
value decoders and the `bytes_read` counter) is modelled as an oracle record
`ParserStep` holding the results the parser would return during one call of
`next`: `bytesReadPre` is the counter value at entry (used by the pending
delimiter check) and `bytesReadPost` the value right after the one decode call
performed in that branch (used as `base_offset` of a pushed scope).
-/

namespace DicomRs

/-- Modelled from the spec: the kind of an underlying I/O error.  The tokenizer
only distinguishes the unexpected end-of-file kind. -/
inductive IoErrorKind where
  | UnexpectedEof
  | Other
deriving DecidableEq

/-- Modelled from the spec: the error type of the parser crate, restricted to
the variants the tokenizer raises or propagates.  `DecoderFailure` stands for
any other decoder error, carrying an opaque code so that distinct errors can
be told apart. -/
inductive Error where
  | Io (kind : IoErrorKind)
  | InconsistentSequenceEnd (eos : Nat) (bytesRead : Nat)
  | DecoderFailure (code : Nat)
deriving DecidableEq

/-- Modelled from the spec: a DICOM tag, a pair of 16-bit group and element
numbers. -/
structure Tag where
  group : Nat
  elem : Nat
deriving DecidableEq

/-- Modelled from the spec: a 32-bit length with the distinguished undefined
sentinel `0xFFFFFFFF`. -/
structure Length where
  val : Nat
deriving DecidableEq

/-- Modelled from the spec: `Length::get` returns `none` for the undefined
sentinel and the byte count otherwise. -/
def Length.get (l : Length) : Option Nat :=
  if l.val = 0xFFFFFFFF then none else some l.val

/-- Modelled from the spec: the DICOM value representations.  Only `SQ` is
structurally distinguished by the tokenizer. -/
inductive VR where
  | AE | AS | AT | CS | DA | DS | DT | FL | FD | IS | LO | LT | OB | OD | OF
  | OL | OW | PN | SH | SL | SQ | SS | ST | TM | UC | UI | UL | UN | UR | US | UT
deriving DecidableEq

/-- Modelled from the spec: a data element header `{tag, vr, len}`. -/
structure DataElementHeader where
  tag : Tag
  vr : VR
  len : Length
deriving DecidableEq

/-- Modelled from the spec: the result of decoding an item header. -/
inductive SequenceItemHeader where
  | Item (len : Length)
  | ItemDelimiter
  | SequenceDelimiter
deriving DecidableEq

/-- Modelled from the spec: an opaque primitive value; the tokenizer never
destructures it, so it is represented by an opaque payload with structural
equality. -/
structure PrimitiveValue where
  data : Nat
deriving DecidableEq

/-- The output alphabet `DataToken` of `dataset.rs`. -/
inductive DataToken where
  | ElementHeader (header : DataElementHeader)
  | SequenceStart (tag : Tag) (len : Length)
  | SequenceEnd
  | ItemStart (len : Length)
  | ItemEnd
  | PrimitiveValue (value : PrimitiveValue)
deriving DecidableEq

/-- The type of a delimiter-stack entry, `SeqTokenType` of `dataset.rs`. -/
inductive SeqTokenType where
  | Sequence
  | Item
deriving DecidableEq

/-- A delimiter-stack entry, `SeqToken` of `dataset.rs`. -/
structure SeqToken where
  typ : SeqTokenType
  len : Length
  base_offset : Nat
deriving DecidableEq

/-- The mutable state of `DataSetReader` (source, parser and dictionary are
modelled through the `ParserStep` oracle).  The delimiter stack is a list whose
head is the top (the Rust `Vec` pushes, pops and peeks at its end). -/
structure DataSetReaderState where
  in_sequence : Bool
  delimiter_check_pending : Bool
  seq_delimiters : List SeqToken
  hard_break : Bool
  last_header : Option DataElementHeader
deriving DecidableEq

/-- The results the `Parse` capability returns during one call of `next`. -/
structure ParserStep where
  itemHeaderResult : Except Error SequenceItemHeader
  headerResult : Except Error DataElementHeader
  valueResult : Except Error PrimitiveValue
  bytesReadPre : Nat
  bytesReadPost : Nat

/-- The initial state built by `DataSetReader::new_with` / `new`
(`dataset.rs` lines 77-86): empty stack, all flags clear, no stored header. -/
def newReaderState : DataSetReaderState :=
  { in_sequence := false
    delimiter_check_pending := false
    seq_delimiters := []
    hard_break := false
    last_header := none }

/-- Embedding of `DataSetReader::update_seq_delimiters` (`dataset.rs` lines
300-328).  Returns the Rust function's `Result<Option<DataToken>>` together
with the updated state. -/
def update_seq_delimiters (st : DataSetReaderState) (bytes_read : Nat) :
    Except Error (Option DataToken) × DataSetReaderState :=
  match st.seq_delimiters.head? with
  | some sd =>
    match sd.len.get with
    | some len =>
      if sd.base_offset + len = bytes_read then
        match sd.typ with
        | SeqTokenType.Sequence =>
          (Except.ok (some DataToken.SequenceEnd),
            { st with in_sequence := false, seq_delimiters := st.seq_delimiters.tail })
        | SeqTokenType.Item =>
          (Except.ok (some DataToken.ItemEnd),
            { st with in_sequence := true, seq_delimiters := st.seq_delimiters.tail })
      else if sd.base_offset + len < bytes_read then
        (Except.error (Error.InconsistentSequenceEnd (sd.base_offset + len) bytes_read), st)
      else
        (Except.ok none, { st with delimiter_check_pending := false })
    | none => (Except.ok none, { st with delimiter_check_pending := false })
  | none => (Except.ok none, { st with delimiter_check_pending := false })

/-- Embedding of the three lower branches of `DataSetReader::next`
(`dataset.rs` lines 189-290): inside a sequence, value expected, header
expected.  Called after the fuse and the pending delimiter check. -/
def nextAfterCheck (st : DataSetReaderState) (p : ParserStep) :
    Option (Except Error DataToken) × DataSetReaderState :=
  if st.in_sequence then
    match p.itemHeaderResult with
    | Except.ok (SequenceItemHeader.Item len) =>
      (some (Except.ok (DataToken.ItemStart len)),
        { st with
          in_sequence := false
          seq_delimiters :=
            { typ := SeqTokenType.Item, len := len, base_offset := p.bytesReadPost }
              :: st.seq_delimiters
          delimiter_check_pending :=
            if len = Length.mk 0 then true else st.delimiter_check_pending })
    | Except.ok SequenceItemHeader.ItemDelimiter =>
      (some (Except.ok DataToken.ItemEnd),
        { st with seq_delimiters := st.seq_delimiters.tail, in_sequence := true })
    | Except.ok SequenceItemHeader.SequenceDelimiter =>
      (some (Except.ok DataToken.SequenceEnd),
        { st with seq_delimiters := st.seq_delimiters.tail, in_sequence := false })
    | Except.error e => (some (Except.error e), { st with hard_break := true })
  else
    match st.last_header with
    | some _ =>
      match p.valueResult with
      | Except.ok v =>
        (some (Except.ok (DataToken.PrimitiveValue v)),
          { st with last_header := none, delimiter_check_pending := true })
      | Except.error e =>
        (some (Except.error e), { st with hard_break := true, last_header := none })
    | none =>
      match p.headerResult with
      | Except.ok h =>
        if h.vr = VR.SQ then
          (some (Except.ok (DataToken.SequenceStart h.tag h.len)),
            { st with
              in_sequence := true
              seq_delimiters :=
                { typ := SeqTokenType.Sequence, len := h.len, base_offset := p.bytesReadPost }
                  :: st.seq_delimiters
              delimiter_check_pending :=
                if h.len = Length.mk 0 then true else st.delimiter_check_pending })
        else if h.tag = Tag.mk 0xFFFE 0xE00D then
          (some (Except.ok DataToken.ItemEnd), { st with in_sequence := true })
        else
          (some (Except.ok (DataToken.ElementHeader h)), { st with last_header := some h })
      | Except.error (Error.Io IoErrorKind.UnexpectedEof) =>
        (none, { st with hard_break := true })
      | Except.error e => (some (Except.error e), { st with hard_break := true })

/-- Embedding of `<DataSetReader as Iterator>::next` (`dataset.rs` lines
172-291): fuse check, pending delimiter check, then the three decode
branches. -/
def next (st : DataSetReaderState) (p : ParserStep) :
    Option (Except Error DataToken) × DataSetReaderState :=
  if st.hard_break then (none, st)
  else if st.delimiter_check_pending then
    match update_seq_delimiters st p.bytesReadPre with
    | (Except.error e, st1) => (some (Except.error e), { st1 with hard_break := true })
    | (Except.ok (some token), st1) => (some (Except.ok token), st1)
    | (Except.ok none, st1) => nextAfterCheck st1 p
  else nextAfterCheck st p

/-- The sequence of iterator outputs over a list of parser-oracle steps. -/
def runOutputs : DataSetReaderState → List ParserStep → List (Option (Except Error DataToken))
  | _, [] => []
  | st, p :: ps => (next st p).1 :: runOutputs (next st p).2 ps

/-- The successfully emitted tokens over a list of parser-oracle steps. -/
def runToks : DataSetReaderState → List ParserStep → List DataToken
  | _, [] => []
  | st, p :: ps =>
    match next st p with
    | (some (Except.ok t), st1) => t :: runToks st1 ps
    | (_, st1) => runToks st1 ps

/-! Characterization lemmas for the delimiter check. -/

theorem update_error_state (st : DataSetReaderState) (pos : Nat) (e : Error)
    (st1 : DataSetReaderState)
    (h : update_seq_delimiters st pos = (Except.error e, st1)) : st1 = st := by
  unfold update_seq_delimiters at h
  repeat' split at h
  all_goals simp_all

theorem update_none_state (st : DataSetReaderState) (pos : Nat)
    (st1 : DataSetReaderState)
    (h : update_seq_delimiters st pos = (Except.ok none, st1)) :
    st1 = { st with delimiter_check_pending := false } := by
  unfold update_seq_delimiters at h
  repeat' split at h
  all_goals simp_all

theorem update_some_state (st : DataSetReaderState) (pos : Nat) (tok : DataToken)
    (st1 : DataSetReaderState)
    (h : update_seq_delimiters st pos = (Except.ok (some tok), st1)) :
    st1.delimiter_check_pending = st.delimiter_check_pending ∧
    st1.last_header = st.last_header ∧
    st1.hard_break = st.hard_break ∧
    st1.seq_delimiters = st.seq_delimiters.tail ∧
    (tok = DataToken.SequenceEnd ∨ tok = DataToken.ItemEnd) := by
  unfold update_seq_delimiters at h
  repeat' split at h
  all_goals cases h
  all_goals simp

/-- C1: for every call of the delimiter check: with an empty stack or an
undefined-length top scope, the pending flag is cleared and no token is
produced; with a defined-length top scope and `eos = base_offset + len`,
position `= eos` pops the top and returns the matching closing token while
setting `in_sequence` accordingly, position `> eos` fails with
`InconsistentSequenceEnd(eos, pos)`, and position `< eos` clears the pending
flag and produces no token. -/
theorem c1_delimiter_check (st : DataSetReaderState) (pos : Nat)
    (_hp : st.delimiter_check_pending = true) :
    (st.seq_delimiters.head? = none →
      update_seq_delimiters st pos =
        (Except.ok none, { st with delimiter_check_pending := false })) ∧
    (∀ sd, st.seq_delimiters.head? = some sd → sd.len.get = none →
      update_seq_delimiters st pos =
        (Except.ok none, { st with delimiter_check_pending := false })) ∧
    (∀ sd n, st.seq_delimiters.head? = some sd → sd.len.get = some n →
      ((pos = sd.base_offset + n →
        update_seq_delimiters st pos =
          (Except.ok (some (match sd.typ with
            | SeqTokenType.Sequence => DataToken.SequenceEnd
            | SeqTokenType.Item => DataToken.ItemEnd)),
           { st with
             in_sequence := (match sd.typ with
               | SeqTokenType.Sequence => false
               | SeqTokenType.Item => true)
             seq_delimiters := st.seq_delimiters.tail })) ∧
      (sd.base_offset + n < pos →
        update_seq_delimiters st pos =
          (Except.error (Error.InconsistentSequenceEnd (sd.base_offset + n) pos), st)) ∧
      (pos < sd.base_offset + n →
        update_seq_delimiters st pos =
          (Except.ok none, { st with delimiter_check_pending := false })))) := by
  refine ⟨?_, ?_, ?_⟩
  · intro h
    simp only [update_seq_delimiters, h]
  · intro sd hsd hlen
    simp only [update_seq_delimiters, hsd, hlen]
  · intro sd n hsd hlen
    obtain ⟨typ, slen, soff⟩ := sd
    simp only at hlen
    refine ⟨?_, ?_, ?_⟩
    · intro hpos
      subst hpos
      cases typ <;> simp [update_seq_delimiters, hsd, hlen]
    · intro hlt
      have hne : ¬ (soff + n = pos) := Nat.ne_of_lt hlt
      simp [update_seq_delimiters, hsd, hlen, hne, hlt]
    · intro hlt
      have hne : ¬ (soff + n = pos) := Nat.ne_of_gt hlt
      have hnlt : ¬ (soff + n < pos) := Nat.not_lt_of_gt hlt
      simp [update_seq_delimiters, hsd, hlen, hne, hnlt]

def c1State : DataSetReaderState :=
  { in_sequence := false
    delimiter_check_pending := true
    seq_delimiters := [{ typ := SeqTokenType.Item, len := Length.mk 4, base_offset := 0 }]
    hard_break := false
    last_header := none }

/-- Witness for C1 at a concrete state: an item scope of length 4 opened at
offset 0 is closed exactly when the parser has read 4 bytes. -/
theorem c1_delimiter_check_witness :
    update_seq_delimiters c1State 4 =
      (Except.ok (some DataToken.ItemEnd),
        { c1State with in_sequence := true, seq_delimiters := [] }) := by
  have h := (c1_delimiter_check c1State 4 rfl).2.2
    { typ := SeqTokenType.Item, len := Length.mk 4, base_offset := 0 } 4 rfl rfl
  exact h.1 rfl

/-- C6: every path of `update_seq_delimiters` that returns a closing token
leaves `delimiter_check_pending` set, the flag is cleared exactly on the
no-token paths, and when `next` serves a closing token from the delimiter
check, the post-state still has the flag set, so the following call re-enters
the check. -/
theorem c6_pending_after_closing (st : DataSetReaderState) (p : ParserStep) (pos : Nat)
    (hp : st.delimiter_check_pending = true) :
    (∀ tok st1, update_seq_delimiters st pos = (Except.ok (some tok), st1) →
      st1.delimiter_check_pending = true) ∧
    (∀ st1, update_seq_delimiters st pos = (Except.ok none, st1) →
      st1.delimiter_check_pending = false) ∧
    (∀ tok st1, st.hard_break = false →
      update_seq_delimiters st p.bytesReadPre = (Except.ok (some tok), st1) →
      next st p = (some (Except.ok tok), st1) ∧ st1.delimiter_check_pending = true) := by
  refine ⟨?_, ?_, ?_⟩
  · intro tok st1 h
    have := (update_some_state st pos tok st1 h).1
    rw [this, hp]
  · intro st1 h
    rw [update_none_state st pos st1 h]
  · intro tok st1 hb h
    constructor
    · simp only [next, hb, hp, h]
      simp
    · have := (update_some_state st p.bytesReadPre tok st1 h).1
      rw [this, hp]

def c6State : DataSetReaderState :=
  { in_sequence := false
    delimiter_check_pending := true
    seq_delimiters :=
      [{ typ := SeqTokenType.Item, len := Length.mk 4, base_offset := 4 },
       { typ := SeqTokenType.Sequence, len := Length.mk 16, base_offset := 0 }]
    hard_break := false
    last_header := none }

def c6Step : ParserStep :=
  { itemHeaderResult := Except.ok SequenceItemHeader.ItemDelimiter
    headerResult := Except.error (Error.DecoderFailure 0)
    valueResult := Except.ok { data := 0 }
    bytesReadPre := 8
    bytesReadPost := 8 }

/-- Witness for C6 at a concrete state: an item scope ending at offset 8 is
closed by `next` through the delimiter check, and the pending flag stays set
in the resulting state. -/
theorem c6_pending_after_closing_witness :
    next c6State c6Step =
      (some (Except.ok DataToken.ItemEnd),
        { c6State with
          in_sequence := true
          seq_delimiters :=
            [{ typ := SeqTokenType.Sequence, len := Length.mk 16, base_offset := 0 }] }) ∧
    ({ c6State with
        in_sequence := true
        seq_delimiters :=
          [{ typ := SeqTokenType.Sequence, len := Length.mk 16, base_offset := 0 }]
      } : DataSetReaderState).delimiter_check_pending = true := by
  exact (c6_pending_after_closing c6State c6Step 8 rfl).2.2 DataToken.ItemEnd _ rfl rfl

/-! Branch lemmas for `next`, shared by several theorems below. -/

theorem next_item_start (st : DataSetReaderState) (p : ParserStep)
    (hb : st.hard_break = false) (hd : st.delimiter_check_pending = false)
    (hs : st.in_sequence = true) (len : Length)
    (hh : p.itemHeaderResult = Except.ok (SequenceItemHeader.Item len)) :
    next st p =
      (some (Except.ok (DataToken.ItemStart len)),
        { st with
          in_sequence := false
          seq_delimiters :=
            { typ := SeqTokenType.Item, len := len, base_offset := p.bytesReadPost }
              :: st.seq_delimiters
          delimiter_check_pending := decide (len = Length.mk 0) }) := by
  by_cases hlen : len = Length.mk 0 <;>
    simp [next, nextAfterCheck, hb, hd, hs, hh, hlen]

theorem next_item_delimiter (st : DataSetReaderState) (p : ParserStep)
    (hb : st.hard_break = false) (hd : st.delimiter_check_pending = false)
    (hs : st.in_sequence = true)
    (hh : p.itemHeaderResult = Except.ok SequenceItemHeader.ItemDelimiter) :
    next st p =
      (some (Except.ok DataToken.ItemEnd),
        { st with seq_delimiters := st.seq_delimiters.tail, in_sequence := true }) := by
  simp [next, nextAfterCheck, hb, hd, hs, hh]

theorem next_sequence_delimiter (st : DataSetReaderState) (p : ParserStep)
    (hb : st.hard_break = false) (hd : st.delimiter_check_pending = false)
    (hs : st.in_sequence = true)
    (hh : p.itemHeaderResult = Except.ok SequenceItemHeader.SequenceDelimiter) :
    next st p =
      (some (Except.ok DataToken.SequenceEnd),
        { st with seq_delimiters := st.seq_delimiters.tail, in_sequence := false }) := by
  simp [next, nextAfterCheck, hb, hd, hs, hh]

theorem next_header_item_end_tag (st : DataSetReaderState) (p : ParserStep)
    (hb : st.hard_break = false) (hd : st.delimiter_check_pending = false)
    (hs : st.in_sequence = false) (hl : st.last_header = none)
    (vr : VR) (len : Length)
    (hh : p.headerResult =
      Except.ok { tag := Tag.mk 0xFFFE 0xE00D, vr := vr, len := len })
    (hvr : vr ≠ VR.SQ) :
    next st p = (some (Except.ok DataToken.ItemEnd), { st with in_sequence := true }) := by
  simp [next, nextAfterCheck, hb, hd, hs, hl, hh, hvr]

/-- C2: with the fuse clear, no pending delimiter check and `in_sequence` set,
`next` decodes an item header and performs exactly one of three transitions:
`Item{len}` pushes an item scope based at `bytes_read()`, clears `in_sequence`,
sets the pending flag iff `len = 0` and emits `ItemStart{len}`;
`ItemDelimiter` pops the top, sets `in_sequence` and emits `ItemEnd`;
`SequenceDelimiter` pops the top, clears `in_sequence` and emits
`SequenceEnd`. -/
theorem c2_in_sequence_transitions (st : DataSetReaderState) (p : ParserStep)
    (hb : st.hard_break = false) (hd : st.delimiter_check_pending = false)
    (hs : st.in_sequence = true) :
    (∀ len, p.itemHeaderResult = Except.ok (SequenceItemHeader.Item len) →
      next st p =
        (some (Except.ok (DataToken.ItemStart len)),
          { st with
            in_sequence := false
            seq_delimiters :=
              { typ := SeqTokenType.Item, len := len, base_offset := p.bytesReadPost }
                :: st.seq_delimiters
            delimiter_check_pending := decide (len = Length.mk 0) })) ∧
    (p.itemHeaderResult = Except.ok SequenceItemHeader.ItemDelimiter →
      next st p =
        (some (Except.ok DataToken.ItemEnd),
          { st with seq_delimiters := st.seq_delimiters.tail, in_sequence := true })) ∧
    (p.itemHeaderResult = Except.ok SequenceItemHeader.SequenceDelimiter →
      next st p =
        (some (Except.ok DataToken.SequenceEnd),
          { st with seq_delimiters := st.seq_delimiters.tail, in_sequence := false })) := by
  exact ⟨fun len hh => next_item_start st p hb hd hs len hh,
    fun hh => next_item_delimiter st p hb hd hs hh,
    fun hh => next_sequence_delimiter st p hb hd hs hh⟩

def c2State : DataSetReaderState :=
  { in_sequence := true
    delimiter_check_pending := false
    seq_delimiters := [{ typ := SeqTokenType.Sequence, len := Length.mk 24, base_offset := 12 }]
    hard_break := false
    last_header := none }

def c2Step : ParserStep :=
  { itemHeaderResult := Except.ok (SequenceItemHeader.Item (Length.mk 0))
    headerResult := Except.error (Error.DecoderFailure 0)
    valueResult := Except.ok { data := 0 }
    bytesReadPre := 20
    bytesReadPost := 20 }

/-- Witness for C2 at a concrete state: inside a sequence, an empty item
header pushes an item scope, clears `in_sequence`, sets the pending flag and
emits `ItemStart{0}`. -/
theorem c2_in_sequence_transitions_witness :
    next c2State c2Step =
      (some (Except.ok (DataToken.ItemStart (Length.mk 0))),
        { c2State with
          in_sequence := false
          seq_delimiters :=
            { typ := SeqTokenType.Item, len := Length.mk 0, base_offset := 20 }
              :: c2State.seq_delimiters
          delimiter_check_pending := decide (Length.mk 0 = Length.mk 0) }) := by
  exact (c2_in_sequence_transitions c2State c2Step rfl rfl rfl).1 (Length.mk 0) rfl

/-- C5: a header decoded at header position whose tag is `(FFFE, E00D)` (and
which does not take the `SQ` arm, which is matched first) sets `in_sequence`
and emits `ItemEnd`, leaving the delimiter stack, the stored header, the
pending flag and the fuse unchanged. -/
theorem c5_item_end_at_header_position (st : DataSetReaderState) (p : ParserStep)
    (hb : st.hard_break = false) (hd : st.delimiter_check_pending = false)
    (hs : st.in_sequence = false) (hl : st.last_header = none)
    (vr : VR) (len : Length)
    (hh : p.headerResult =
      Except.ok { tag := Tag.mk 0xFFFE 0xE00D, vr := vr, len := len })
    (hvr : vr ≠ VR.SQ) :
    next st p = (some (Except.ok DataToken.ItemEnd), { st with in_sequence := true }) ∧
    (next st p).2.seq_delimiters = st.seq_delimiters ∧
    (next st p).2.last_header = st.last_header ∧
    (next st p).2.delimiter_check_pending = st.delimiter_check_pending ∧
    (next st p).2.hard_break = st.hard_break := by
  have h1 := next_header_item_end_tag st p hb hd hs hl vr len hh hvr
  rw [h1]
  simp

def c5State : DataSetReaderState :=
  { in_sequence := false
    delimiter_check_pending := false
    seq_delimiters := [{ typ := SeqTokenType.Sequence, len := Length.mk 0xFFFFFFFF, base_offset := 12 }]
    hard_break := false
    last_header := none }

def c5Step : ParserStep :=
  { itemHeaderResult := Except.error (Error.DecoderFailure 0)
    headerResult :=
      Except.ok { tag := Tag.mk 0xFFFE 0xE00D, vr := VR.UN, len := Length.mk 0 }
    valueResult := Except.ok { data := 0 }
    bytesReadPre := 20
    bytesReadPost := 28 }

/-- Witness for C5 at a concrete state: an `(FFFE, E00D)` header with VR `UN`
only flips `in_sequence`; the stack below is untouched. -/
theorem c5_item_end_at_header_position_witness :
    next c5State c5Step =
      (some (Except.ok DataToken.ItemEnd), { c5State with in_sequence := true }) ∧
    (next c5State c5Step).2.seq_delimiters = c5State.seq_delimiters ∧
    (next c5State c5Step).2.last_header = c5State.last_header ∧
    (next c5State c5Step).2.delimiter_check_pending = c5State.delimiter_check_pending ∧
    (next c5State c5Step).2.hard_break = c5State.hard_break := by
  exact c5_item_end_at_header_position c5State c5Step rfl rfl rfl rfl VR.UN (Length.mk 0)
    rfl (by decide)

/-- C10: the delimiter-tag pops inside a sequence are total: with an empty
delimiter stack (reachable through the `(FFFE, E00D)`-at-header-position
branch, which sets `in_sequence` without pushing a scope), `ItemDelimiter`
and `SequenceDelimiter` still emit their closing token and leave the stack
empty, and the model is a total function, so no panic occurs. -/
theorem c10_pop_on_empty_stack (st : DataSetReaderState) (p : ParserStep)
    (hb : st.hard_break = false) (hd : st.delimiter_check_pending = false)
    (hs : st.in_sequence = true) (hempty : st.seq_delimiters = []) :
    (p.itemHeaderResult = Except.ok SequenceItemHeader.ItemDelimiter →
      next st p = (some (Except.ok DataToken.ItemEnd), { st with in_sequence := true }) ∧
      (next st p).2.seq_delimiters = []) ∧
    (p.itemHeaderResult = Except.ok SequenceItemHeader.SequenceDelimiter →
      next st p = (some (Except.ok DataToken.SequenceEnd), { st with in_sequence := false }) ∧
      (next st p).2.seq_delimiters = []) ∧
    (∀ vr len (q : ParserStep),
      q.headerResult = Except.ok { tag := Tag.mk 0xFFFE 0xE00D, vr := vr, len := len } →
      vr ≠ VR.SQ →
      (next newReaderState q).2.in_sequence = true ∧
      (next newReaderState q).2.seq_delimiters = []) := by
  refine ⟨?_, ?_, ?_⟩
  · intro hh
    have h1 := next_item_delimiter st p hb hd hs hh
    refine ⟨?_, ?_⟩ <;> simp [h1, hempty]
  · intro hh
    have h1 := next_sequence_delimiter st p hb hd hs hh
    refine ⟨?_, ?_⟩ <;> simp [h1, hempty]
  · intro vr len q hh hvr
    have h1 := next_header_item_end_tag newReaderState q rfl rfl rfl rfl vr len hh hvr
    rw [h1]
    exact ⟨rfl, rfl⟩

def c10State : DataSetReaderState :=
  { in_sequence := true
    delimiter_check_pending := false
    seq_delimiters := []
    hard_break := false
    last_header := none }

def c10Step : ParserStep :=
  { itemHeaderResult := Except.ok SequenceItemHeader.SequenceDelimiter
    headerResult := Except.error (Error.DecoderFailure 0)
    valueResult := Except.ok { data := 0 }
    bytesReadPre := 16
    bytesReadPost := 24 }

/-- Witness for C10 at a concrete state: a sequence delimiter arriving with an
empty delimiter stack still emits `SequenceEnd` and leaves the stack empty. -/
theorem c10_pop_on_empty_stack_witness :
    next c10State c10Step =
      (some (Except.ok DataToken.SequenceEnd), { c10State with in_sequence := false }) ∧
    (next c10State c10Step).2.seq_delimiters = [] := by
  exact (c10_pop_on_empty_stack c10State c10Step rfl rfl rfl rfl).2.1 rfl

/-! Fusing lemmas: a set `hard_break` makes every later call return nothing. -/

theorem next_fused (st : DataSetReaderState) (p : ParserStep)
    (h : st.hard_break = true) : next st p = (none, st) := by
  simp [next, h]

theorem runOutputs_fused (ps : List ParserStep) (st : DataSetReaderState)
    (h : st.hard_break = true) : ∀ o ∈ runOutputs st ps, o = none := by
  induction ps generalizing st with
  | nil => intro o ho; simp [runOutputs] at ho
  | cons p ps ih =>
    intro o ho
    rw [runOutputs, next_fused st p h] at ho
    rcases List.mem_cons.mp ho with h1 | h1
    · exact h1
    · exact ih st h o h1

theorem afterCheck_shape (st : DataSetReaderState) (p : ParserStep) :
    (∃ t, (nextAfterCheck st p).1 = some (Except.ok t)) ∨
    (nextAfterCheck st p).2.hard_break = true := by
  unfold nextAfterCheck
  repeat' split
  all_goals simp

theorem next_shape (st : DataSetReaderState) (p : ParserStep) :
    (∃ t, (next st p).1 = some (Except.ok t)) ∨ (next st p).2.hard_break = true := by
  by_cases hb : st.hard_break
  · right
    rw [next_fused st p hb]
    exact hb
  · rw [Bool.not_eq_true] at hb
    by_cases hd : st.delimiter_check_pending
    · rcases hu : update_seq_delimiters st p.bytesReadPre with ⟨r, st1⟩
      match r with
      | Except.error e =>
        right
        simp [next, hb, hd, hu]
      | Except.ok (some tok) =>
        left
        exact ⟨tok, by simp [next, hb, hd, hu]⟩
      | Except.ok none =>
        have : next st p = nextAfterCheck st1 p := by simp [next, hb, hd, hu]
        rw [this]
        exact afterCheck_shape st1 p
    · rw [Bool.not_eq_true] at hd
      have : next st p = nextAfterCheck st p := by simp [next, hb, hd]
      rw [this]
      exact afterCheck_shape st p

theorem next_break (st : DataSetReaderState) (p : ParserStep)
    (h : (next st p).1 = none ∨ ∃ e, (next st p).1 = some (Except.error e)) :
    (next st p).2.hard_break = true := by
  rcases next_shape st p with ⟨t, ht⟩ | hbk
  · rcases h with h | ⟨e, h⟩ <;> rw [ht] at h <;> simp at h
  · exact hbk

/-- C4: the tokenizer is fused.  A set `hard_break` makes `next` return
nothing and leave the state untouched; every call returning `none` or an
error leaves `hard_break` set; and after such a call every subsequent output
is `none`. -/
theorem c4_fused_iteration (st : DataSetReaderState) (p : ParserStep) :
    (st.hard_break = true → next st p = (none, st)) ∧
    (((next st p).1 = none ∨ ∃ e, (next st p).1 = some (Except.error e)) →
      (next st p).2.hard_break = true) ∧
    (∀ ps, ((next st p).1 = none ∨ ∃ e, (next st p).1 = some (Except.error e)) →
      ∀ o ∈ runOutputs (next st p).2 ps, o = none) := by
  refine ⟨next_fused st p, next_break st p, ?_⟩
  intro ps h
  exact runOutputs_fused ps (next st p).2 (next_break st p h)

def c4Step : ParserStep :=
  { itemHeaderResult := Except.ok SequenceItemHeader.ItemDelimiter
    headerResult := Except.error (Error.DecoderFailure 3)
    valueResult := Except.ok { data := 0 }
    bytesReadPre := 0
    bytesReadPost := 0 }

/-- Witness for C4 at a concrete input: after a decoder error on the first
header, the two following calls both return `none`. -/
theorem c4_fused_iteration_witness :
    ∀ o ∈ runOutputs (next newReaderState c4Step).2 [c4Step, c4Step], o = none := by
  exact (c4_fused_iteration newReaderState c4Step).2.2 [c4Step, c4Step]
    (Or.inr ⟨Error.DecoderFailure 3, rfl⟩)

/-! Error-branch lemmas for `next`. -/

theorem next_header_eof (st : DataSetReaderState) (p : ParserStep)
    (hb : st.hard_break = false) (hd : st.delimiter_check_pending = false)
    (hs : st.in_sequence = false) (hl : st.last_header = none)
    (hh : p.headerResult = Except.error (Error.Io IoErrorKind.UnexpectedEof)) :
    next st p = (none, { st with hard_break := true }) := by
  simp [next, nextAfterCheck, hb, hd, hs, hl, hh]

theorem next_item_header_error (st : DataSetReaderState) (p : ParserStep)
    (hb : st.hard_break = false) (hd : st.delimiter_check_pending = false)
    (hs : st.in_sequence = true) (e : Error)
    (hh : p.itemHeaderResult = Except.error e) :
    next st p = (some (Except.error e), { st with hard_break := true }) := by
  simp [next, nextAfterCheck, hb, hd, hs, hh]

theorem next_value_error (st : DataSetReaderState) (p : ParserStep)
    (hb : st.hard_break = false) (hd : st.delimiter_check_pending = false)
    (hs : st.in_sequence = false) (h0 : DataElementHeader)
    (hl : st.last_header = some h0) (e : Error)
    (hv : p.valueResult = Except.error e) :
    next st p =
      (some (Except.error e), { st with hard_break := true, last_header := none }) := by
  simp [next, nextAfterCheck, hb, hd, hs, hl, hv]

theorem afterCheck_none (st : DataSetReaderState) (p : ParserStep)
    (h : (nextAfterCheck st p).1 = none) :
    st.in_sequence = false ∧ st.last_header = none ∧
    p.headerResult = Except.error (Error.Io IoErrorKind.UnexpectedEof) := by
  unfold nextAfterCheck at h
  repeat' split at h
  all_goals simp_all

/-- C3: an `UnexpectedEof` I/O error from `decode_header` in the
header-expected branch is the sole non-error termination: it yields `None`
with the fuse set, while a decode error while `in_sequence` or a `read_value`
error of a stored header is surfaced as `Some(Err(_))`; conversely a fresh
`None` can only come from that header-expected `UnexpectedEof`. -/
theorem c3_eof_termination (st : DataSetReaderState) (p : ParserStep)
    (hb : st.hard_break = false) :
    (st.delimiter_check_pending = false → st.in_sequence = false →
      st.last_header = none →
      p.headerResult = Except.error (Error.Io IoErrorKind.UnexpectedEof) →
      next st p = (none, { st with hard_break := true })) ∧
    (st.delimiter_check_pending = false → st.in_sequence = true →
      ∀ e, p.itemHeaderResult = Except.error e →
        next st p = (some (Except.error e), { st with hard_break := true })) ∧
    (st.delimiter_check_pending = false → st.in_sequence = false →
      ∀ h0, st.last_header = some h0 →
        ∀ e, p.valueResult = Except.error e →
          next st p =
            (some (Except.error e), { st with hard_break := true, last_header := none })) ∧
    ((next st p).1 = none →
      st.in_sequence = false ∧ st.last_header = none ∧
      p.headerResult = Except.error (Error.Io IoErrorKind.UnexpectedEof)) := by
  refine ⟨?_, ?_, ?_, ?_⟩
  · intro hd hs hl hh
    exact next_header_eof st p hb hd hs hl hh
  · intro hd hs e hh
    exact next_item_header_error st p hb hd hs e hh
  · intro hd hs h0 hl e hv
    exact next_value_error st p hb hd hs h0 hl e hv
  · intro h
    by_cases hd : st.delimiter_check_pending
    · rcases hu : update_seq_delimiters st p.bytesReadPre with ⟨r, st1⟩
      match r with
      | Except.error e => exfalso; simp [next, hb, hd, hu] at h
      | Except.ok (some tok) => exfalso; simp [next, hb, hd, hu] at h
      | Except.ok none =>
        have hnext : next st p = nextAfterCheck st1 p := by simp [next, hb, hd, hu]
        rw [hnext] at h
        have h2 := afterCheck_none st1 p h
        rw [update_none_state st p.bytesReadPre st1 hu] at h2
        exact h2
    · rw [Bool.not_eq_true] at hd
      have hnext : next st p = nextAfterCheck st p := by simp [next, hb, hd]
      rw [hnext] at h
      exact afterCheck_none st p h

def c3Step : ParserStep :=
  { itemHeaderResult := Except.ok SequenceItemHeader.ItemDelimiter
    headerResult := Except.error (Error.Io IoErrorKind.UnexpectedEof)
    valueResult := Except.ok { data := 0 }
    bytesReadPre := 30
    bytesReadPost := 30 }

/-- Witness for C3 at a concrete input: end of stream at a header boundary
terminates the fresh reader with `None` and sets the fuse. -/
theorem c3_eof_termination_witness :
    next newReaderState c3Step = (none, { newReaderState with hard_break := true }) := by
  exact (c3_eof_termination newReaderState c3Step rfl).1 rfl rfl rfl rfl

/-- The invariant exactly as claimed: a stored header excludes `in_sequence`,
and `in_sequence` implies no stored header and a `Sequence` or `Item` scope on
top of the delimiter stack. -/
def ClaimedInvariant (st : DataSetReaderState) : Prop :=
  (st.last_header.isSome = true → st.in_sequence = false) ∧
  (st.in_sequence = true →
    st.last_header = none ∧
    ∃ sd, st.seq_delimiters.head? = some sd ∧
      (sd.typ = SeqTokenType.Sequence ∨ sd.typ = SeqTokenType.Item))

def c8Step : ParserStep :=
  { itemHeaderResult := Except.error (Error.DecoderFailure 0)
    headerResult :=
      Except.ok { tag := Tag.mk 0xFFFE 0xE00D, vr := VR.UN, len := Length.mk 0 }
    valueResult := Except.ok { data := 0 }
    bytesReadPre := 0
    bytesReadPost := 8 }

/-- Counterexample to C8: the claimed invariant holds in the initial state but
is not preserved by `next`: an `(FFFE, E00D)` header at header position sets
`in_sequence` without pushing a scope, so the delimiter stack stays empty. -/
theorem c8_claimed_invariant_not_preserved :
    ClaimedInvariant newReaderState ∧
    ¬ ClaimedInvariant (next newReaderState c8Step).2 := by
  constructor
  · exact ⟨fun h => rfl, fun h => by simp [newReaderState] at h⟩
  · have h1 := next_header_item_end_tag newReaderState c8Step rfl rfl rfl rfl
      VR.UN (Length.mk 0) rfl (by decide)
    rw [h1]
    intro hc
    obtain ⟨-, sd, hsd, -⟩ := hc.2 rfl
    simp [newReaderState] at hsd

/-- The corrected inductive invariant: a stored header additionally excludes a
pending delimiter check, and the stack conjunct is dropped. -/
def StateInvariant (st : DataSetReaderState) : Prop :=
  (st.last_header.isSome = true →
    st.in_sequence = false ∧ st.delimiter_check_pending = false) ∧
  (st.in_sequence = true → st.last_header = none)

theorem afterCheck_invariant (st : DataSetReaderState) (p : ParserStep)
    (hd : st.delimiter_check_pending = false) (h : StateInvariant st) :
    StateInvariant (nextAfterCheck st p).2 := by
  obtain ⟨h1, h2⟩ := h
  unfold nextAfterCheck
  repeat' split
  all_goals simp_all [StateInvariant]

theorem next_invariant (st : DataSetReaderState) (p : ParserStep)
    (h : StateInvariant st) : StateInvariant (next st p).2 := by
  by_cases hb : st.hard_break
  · rw [next_fused st p hb]
    exact h
  · rw [Bool.not_eq_true] at hb
    by_cases hd : st.delimiter_check_pending
    · rcases hu : update_seq_delimiters st p.bytesReadPre with ⟨r, st1⟩
      match r with
      | Except.error e =>
        have hst1 := update_error_state st p.bytesReadPre e st1 hu
        have hnext : (next st p).2 = { st1 with hard_break := true } := by
          simp [next, hb, hd, hu]
        rw [hnext, hst1]
        exact ⟨h.1, h.2⟩
      | Except.ok (some tok) =>
        have hnext : (next st p).2 = st1 := by simp [next, hb, hd, hu]
        rw [hnext]
        have hfields := update_some_state st p.bytesReadPre tok st1 hu
        have hlh : st.last_header = none := by
          cases hlh' : st.last_header with
          | none => rfl
          | some v =>
            have hcontra := (h.1 (by rw [hlh']; rfl)).2
            rw [hd] at hcontra
            exact absurd hcontra (by simp)
        constructor
        · intro hsome
          rw [hfields.2.1, hlh] at hsome
          simp at hsome
        · intro _
          rw [hfields.2.1, hlh]
      | Except.ok none =>
        have hst1 := update_none_state st p.bytesReadPre st1 hu
        have hnext : (next st p).2 = (nextAfterCheck st1 p).2 := by
          simp [next, hb, hd, hu]
        rw [hnext]
        apply afterCheck_invariant st1 p
        · rw [hst1]
        · subst hst1
          exact ⟨fun hs => ⟨(h.1 hs).1, rfl⟩, h.2⟩
    · rw [Bool.not_eq_true] at hd
      have hnext : (next st p).2 = (nextAfterCheck st p).2 := by
        simp [next, hb, hd]
      rw [hnext]
      exact afterCheck_invariant st p hd h

/-- C8 (amended): the conjunction `last_header.is_some ⇒ ¬in_sequence ∧
¬delimiter_check_pending` and `in_sequence ⇒ last_header.is_none` is an
invariant of the tokenizer: it holds initially and is preserved by every call
of `next`.  (The original claim's extra conjunct — that `in_sequence` implies
a `Sequence` or `Item` scope on top of the stack — fails, see the
counterexample; the pending-flag conjunct is what makes the rest
inductive.) -/
theorem c8_invariant_amended :
    StateInvariant newReaderState ∧
    ∀ st p, StateInvariant st → StateInvariant (next st p).2 := by
  constructor
  · exact ⟨fun h => by simp [newReaderState] at h, fun h => by simp [newReaderState] at h⟩
  · exact fun st p h => next_invariant st p h

/-- Witness for C8 (amended) at a concrete input: the invariant propagated
through one concrete call of `next`. -/
theorem c8_invariant_amended_witness :
    StateInvariant (next newReaderState c8Step).2 := by
  exact c8_invariant_amended.2 newReaderState c8Step c8_invariant_amended.1

/-- Holds of a token list in which every `PrimitiveValue` is immediately
preceded by an `ElementHeader`; the flag records whether the previous token
was an `ElementHeader`. -/
def headerBeforeValue : Bool → List DataToken → Bool
  | _, [] => true
  | afterHeader, DataToken.PrimitiveValue _ :: rest =>
    afterHeader && headerBeforeValue false rest
  | _, DataToken.ElementHeader _ :: rest => headerBeforeValue true rest
  | _, _ :: rest => headerBeforeValue false rest

theorem stateInvariant_new : StateInvariant newReaderState :=
  ⟨fun h => by simp [newReaderState] at h, fun h => by simp [newReaderState] at h⟩

theorem pending_no_header (st : DataSetReaderState) (h : StateInvariant st)
    (hd : st.delimiter_check_pending = true) : st.last_header = none := by
  cases hlh : st.last_header with
  | none => rfl
  | some v =>
    have hcontra := (h.1 (by rw [hlh]; rfl)).2
    rw [hd] at hcontra
    exact absurd hcontra (by simp)

/-- Relation between the stored header before a call, the token it emits and
the stored header after it: a value token requires a stored header and clears
it, an element-header token stores its header, and every other token leaves no
stored header behind. -/
def tokenHeaderRelation (lhPre : Option DataElementHeader) (t : DataToken)
    (lhPost : Option DataElementHeader) : Prop :=
  match t with
  | DataToken.PrimitiveValue _ => lhPre.isSome = true ∧ lhPost = none
  | DataToken.ElementHeader hd0 => lhPost = some hd0
  | _ => lhPost = none

theorem afterCheck_token_shape (st : DataSetReaderState) (p : ParserStep)
    (h2 : st.in_sequence = true → st.last_header = none)
    (t : DataToken) (ht : (nextAfterCheck st p).1 = some (Except.ok t)) :
    tokenHeaderRelation st.last_header t (nextAfterCheck st p).2.last_header := by
  unfold nextAfterCheck at ht ⊢
  repeat' split at ht
  all_goals cases ht
  all_goals simp_all [tokenHeaderRelation]

theorem next_token_shape (st : DataSetReaderState) (p : ParserStep)
    (h : StateInvariant st) (t : DataToken)
    (ht : (next st p).1 = some (Except.ok t)) :
    tokenHeaderRelation st.last_header t (next st p).2.last_header := by
  by_cases hb : st.hard_break
  · rw [next_fused st p hb] at ht
    simp at ht
  · rw [Bool.not_eq_true] at hb
    by_cases hd : st.delimiter_check_pending
    · rcases hu : update_seq_delimiters st p.bytesReadPre with ⟨r, st1⟩
      match r with
      | Except.error e =>
        have hres : (next st p).1 = some (Except.error e) := by simp [next, hb, hd, hu]
        rw [hres] at ht
        simp at ht
      | Except.ok (some tok) =>
        have hres : next st p = (some (Except.ok tok), st1) := by simp [next, hb, hd, hu]
        rw [hres] at ht
        simp only [Option.some.injEq, Except.ok.injEq] at ht
        subst ht
        rw [hres]
        have hfields := update_some_state st p.bytesReadPre tok st1 hu
        have hlh1 : st1.last_header = none := by
          rw [hfields.2.1, pending_no_header st h hd]
        rcases hfields.2.2.2.2 with h1 | h1 <;> subst h1 <;>
          simp [tokenHeaderRelation, hlh1]
      | Except.ok none =>
        have hres : next st p = nextAfterCheck st1 p := by simp [next, hb, hd, hu]
        rw [hres] at ht ⊢
        have hst1 := update_none_state st p.bytesReadPre st1 hu
        have h2 : st1.in_sequence = true → st1.last_header = none := by
          rw [hst1]
          exact h.2
        have hx := afterCheck_token_shape st1 p h2 t ht
        have hlheq : st1.last_header = st.last_header := by rw [hst1]
        rw [hlheq] at hx
        exact hx
    · rw [Bool.not_eq_true] at hd
      have hres : next st p = nextAfterCheck st p := by simp [next, hb, hd]
      rw [hres] at ht ⊢
      exact afterCheck_token_shape st p h.2 t ht

theorem runToks_fused (ps : List ParserStep) (st : DataSetReaderState)
    (h : st.hard_break = true) : runToks st ps = [] := by
  induction ps generalizing st with
  | nil => rfl
  | cons p ps ih =>
    simp only [runToks, next_fused st p h]
    exact ih st h

theorem runToks_headerBeforeValue (ps : List ParserStep) (st : DataSetReaderState)
    (h : StateInvariant st) :
    headerBeforeValue st.last_header.isSome (runToks st ps) = true := by
  induction ps generalizing st with
  | nil => cases st.last_header.isSome <;> rfl
  | cons p ps ih =>
    rcases hn : next st p with ⟨o, st1⟩
    have hinv1 : StateInvariant st1 := by
      have := next_invariant st p h
      rw [hn] at this
      exact this
    match o with
    | none =>
      have hbk : st1.hard_break = true := by
        have := next_break st p (Or.inl (by rw [hn]))
        rw [hn] at this
        exact this
      simp only [runToks, hn, runToks_fused ps st1 hbk]
      cases st.last_header.isSome <;> rfl
    | some (Except.error e) =>
      have hbk : st1.hard_break = true := by
        have := next_break st p (Or.inr ⟨e, by rw [hn]⟩)
        rw [hn] at this
        exact this
      simp only [runToks, hn, runToks_fused ps st1 hbk]
      cases st.last_header.isSome <;> rfl
    | some (Except.ok t) =>
      have hshape := next_token_shape st p h t (by rw [hn])
      rw [hn] at hshape
      have hrest := ih st1 hinv1
      simp only [runToks, hn]
      cases t with
      | PrimitiveValue v =>
        simp only [tokenHeaderRelation] at hshape
        rw [hshape.2] at hrest
        simp [headerBeforeValue, hshape.1]
        exact hrest
      | ElementHeader hd0 =>
        simp only [tokenHeaderRelation] at hshape
        rw [hshape] at hrest
        simp only [headerBeforeValue]
        exact hrest
      | SequenceStart tg ln =>
        simp only [tokenHeaderRelation] at hshape
        rw [hshape] at hrest
        simp only [headerBeforeValue]
        exact hrest
      | SequenceEnd =>
        simp only [tokenHeaderRelation] at hshape
        rw [hshape] at hrest
        simp only [headerBeforeValue]
        exact hrest
      | ItemStart ln =>
        simp only [tokenHeaderRelation] at hshape
        rw [hshape] at hrest
        simp only [headerBeforeValue]
        exact hrest
      | ItemEnd =>
        simp only [tokenHeaderRelation] at hshape
        rw [hshape] at hrest
        simp only [headerBeforeValue]
        exact hrest

theorem headerBeforeValue_position (l : List DataToken) (f : Bool)
    (h : headerBeforeValue f l = true) :
    ∀ i v, l.get? i = some (DataToken.PrimitiveValue v) →
      (i = 0 ∧ f = true) ∨
      (∃ j hd0, i = j + 1 ∧ l.get? j = some (DataToken.ElementHeader hd0)) := by
  induction l generalizing f with
  | nil => intro i v hi; simp at hi
  | cons t rest ih =>
    intro i v hi
    cases i with
    | zero =>
      left
      simp only [List.get?_cons_zero, Option.some.injEq] at hi
      subst hi
      simp only [headerBeforeValue, Bool.and_eq_true] at h
      exact ⟨rfl, h.1⟩
    | succ n =>
      simp only [List.get?_cons_succ] at hi
      cases t with
      | PrimitiveValue w =>
        simp only [headerBeforeValue, Bool.and_eq_true] at h
        rcases ih false h.2 n v hi with ⟨-, hf⟩ | ⟨j, hd1, hj, hg⟩
        · exact absurd hf (by simp)
        · right
          exact ⟨j + 1, hd1, by rw [hj], by simpa using hg⟩
      | ElementHeader hd0 =>
        simp only [headerBeforeValue] at h
        rcases ih true h n v hi with ⟨hn, -⟩ | ⟨j, hd1, hj, hg⟩
        · right
          exact ⟨0, hd0, by rw [hn], by simp⟩
        · right
          exact ⟨j + 1, hd1, by rw [hj], by simpa using hg⟩
      | SequenceStart tg ln =>
        simp only [headerBeforeValue] at h
        rcases ih false h n v hi with ⟨-, hf⟩ | ⟨j, hd1, hj, hg⟩
        · exact absurd hf (by simp)
        · right
          exact ⟨j + 1, hd1, by rw [hj], by simpa using hg⟩
      | SequenceEnd =>
        simp only [headerBeforeValue] at h
        rcases ih false h n v hi with ⟨-, hf⟩ | ⟨j, hd1, hj, hg⟩
        · exact absurd hf (by simp)
        · right
          exact ⟨j + 1, hd1, by rw [hj], by simpa using hg⟩
      | ItemStart ln =>
        simp only [headerBeforeValue] at h
        rcases ih false h n v hi with ⟨-, hf⟩ | ⟨j, hd1, hj, hg⟩
        · exact absurd hf (by simp)
        · right
          exact ⟨j + 1, hd1, by rw [hj], by simpa using hg⟩
      | ItemEnd =>
        simp only [headerBeforeValue] at h
        rcases ih false h n v hi with ⟨-, hf⟩ | ⟨j, hd1, hj, hg⟩
        · exact absurd hf (by simp)
        · right
          exact ⟨j + 1, hd1, by rw [hj], by simpa using hg⟩

/-- C7: in every token stream produced from the initial state, each
`PrimitiveValue` token is immediately preceded by an `ElementHeader` token
(the value is emitted from the header stored by the directly preceding
emission). -/
theorem c7_header_before_value (ps : List ParserStep) (i : Nat) (v : PrimitiveValue)
    (hi : (runToks newReaderState ps).get? i = some (DataToken.PrimitiveValue v)) :
    ∃ j hd0, i = j + 1 ∧
      (runToks newReaderState ps).get? j = some (DataToken.ElementHeader hd0) := by
  have hrun := runToks_headerBeforeValue ps newReaderState stateInvariant_new
  rcases headerBeforeValue_position _ _ hrun i v hi with ⟨-, hf⟩ | hj
  · exact absurd hf (by simp [newReaderState])
  · exact hj

def c7StepHeader : ParserStep :=
  { itemHeaderResult := Except.error (Error.DecoderFailure 0)
    headerResult :=
      Except.ok { tag := Tag.mk 0x0020 0x4000, vr := VR.LT, len := Length.mk 4 }
    valueResult := Except.ok { data := 0 }
    bytesReadPre := 0
    bytesReadPost := 8 }

def c7StepValue : ParserStep :=
  { itemHeaderResult := Except.error (Error.DecoderFailure 0)
    headerResult := Except.error (Error.DecoderFailure 0)
    valueResult := Except.ok { data := 7 }
    bytesReadPre := 8
    bytesReadPost := 12 }

/-- Witness for C7 at a concrete run: a header step followed by a value step
emits `[ElementHeader, PrimitiveValue]`, and the value at index 1 is preceded
by the header at index 0. -/
theorem c7_header_before_value_witness :
    ∃ j hd0, 1 = j + 1 ∧
      (runToks newReaderState [c7StepHeader, c7StepValue]).get? j =
        some (DataToken.ElementHeader hd0) := by
  exact c7_header_before_value [c7StepHeader, c7StepValue] 1 { data := 7 } (by decide)

/-! The lazy marker reader (`LazyDataSetReader`, `dataset.rs` lines 334-472). -/

/-- A `(header, stream position)` marker, `DicomElementMarker` of
`dataset.rs`. -/
structure DicomElementMarker where
  header : DataElementHeader
  pos : Nat
deriving DecidableEq

/-- Modelled from the spec: the `From<SequenceItemHeader>` conversion used by
`create_item_marker` (the conversion itself lives in the core crate, outside
this repository slice): items and delimiters become headers carrying the
reserved tag and the non-applicable VR `UN`. -/
def sequenceItemHeaderToElementHeader : SequenceItemHeader → DataElementHeader
  | SequenceItemHeader.Item len =>
    { tag := Tag.mk 0xFFFE 0xE000, vr := VR.UN, len := len }
  | SequenceItemHeader.ItemDelimiter =>
    { tag := Tag.mk 0xFFFE 0xE00D, vr := VR.UN, len := Length.mk 0 }
  | SequenceItemHeader.SequenceDelimiter =>
    { tag := Tag.mk 0xFFFE 0xE0DD, vr := VR.UN, len := Length.mk 0 }

/-- The mutable state of `LazyDataSetReader`. -/
structure LazyReaderState where
  depth : Nat
  in_sequence : Bool
  hard_break : Bool
deriving DecidableEq

/-- The results the parser and the seekable source return during one call of
the lazy reader's `next`: the decoded headers and the `get_position()`
outcome. -/
structure LazyStep where
  itemHeaderResult : Except Error SequenceItemHeader
  headerResult : Except Error DataElementHeader
  position : Except Error Nat

/-- The initial state built by `LazyDataSetReader::new_with` / `new`
(`dataset.rs` lines 353-360 and 370-377). -/
def newLazyReaderState : LazyReaderState :=
  { depth := 0, in_sequence := false, hard_break := false }

/-- Embedding of `<LazyDataSetReader as Iterator>::next` (`dataset.rs` lines
419-471) together with the inlined `create_element_marker` /
`create_item_marker` (lines 388-409), which set the fuse when
`get_position()` fails.  The `u32` decrement of `depth` at a sequence
delimiter is modelled by truncated subtraction. -/
def lazyNext (st : LazyReaderState) (p : LazyStep) :
    Option (Except Error DicomElementMarker) × LazyReaderState :=
  if st.hard_break then (none, st)
  else if st.in_sequence then
    match p.itemHeaderResult with
    | Except.ok (SequenceItemHeader.Item len) =>
      match p.position with
      | Except.ok pos =>
        (some (Except.ok
          { header := sequenceItemHeaderToElementHeader (SequenceItemHeader.Item len)
            pos := pos }),
          { st with in_sequence := false })
      | Except.error e =>
        (some (Except.error e), { st with in_sequence := false, hard_break := true })
    | Except.ok SequenceItemHeader.ItemDelimiter =>
      match p.position with
      | Except.ok pos =>
        (some (Except.ok
          { header := sequenceItemHeaderToElementHeader SequenceItemHeader.ItemDelimiter
            pos := pos }),
          { st with in_sequence := true })
      | Except.error e =>
        (some (Except.error e), { st with in_sequence := true, hard_break := true })
    | Except.ok SequenceItemHeader.SequenceDelimiter =>
      match p.position with
      | Except.ok pos =>
        (some (Except.ok
          { header := sequenceItemHeaderToElementHeader SequenceItemHeader.SequenceDelimiter
            pos := pos }),
          { st with depth := st.depth - 1, in_sequence := false })
      | Except.error e =>
        (some (Except.error e),
          { st with depth := st.depth - 1, in_sequence := false, hard_break := true })
    | Except.error e => (some (Except.error e), { st with hard_break := true })
  else
    match p.headerResult with
    | Except.ok h =>
      if h.tag = Tag.mk 0x0008 0x0005 then
        match p.position with
        | Except.ok pos => (some (Except.ok { header := h, pos := pos }), st)
        | Except.error e => (some (Except.error e), { st with hard_break := true })
      else if h.vr = VR.SQ then
        match p.position with
        | Except.ok pos =>
          (some (Except.ok { header := h, pos := pos }),
            { st with in_sequence := true, depth := st.depth + 1 })
        | Except.error e =>
          (some (Except.error e),
            { st with in_sequence := true, depth := st.depth + 1, hard_break := true })
      else
        match p.position with
        | Except.ok pos => (some (Except.ok { header := h, pos := pos }), st)
        | Except.error e => (some (Except.error e), { st with hard_break := true })
    | Except.error e => (some (Except.error e), { st with hard_break := true })

def c9Step : LazyStep :=
  { itemHeaderResult := Except.error (Error.DecoderFailure 0)
    headerResult :=
      Except.ok { tag := Tag.mk 0x0008 0x0005, vr := VR.SQ, len := Length.mk 0xFFFFFFFF }
    position := Except.ok 12 }

/-- Counterexample to C9: the `(0008, 0005)` arm of the lazy reader is matched
before the `SQ` check, so a Specific Character Set header with VR `SQ` does
not increment the depth and does not set the expect-item-header flag, contrary
to the claim that the state transitions are the same as for any other
header. -/
theorem c9_specific_charset_counterexample :
    lazyNext newLazyReaderState c9Step =
      (some (Except.ok
        { header :=
            { tag := Tag.mk 0x0008 0x0005, vr := VR.SQ, len := Length.mk 0xFFFFFFFF }
          pos := 12 }),
        newLazyReaderState) ∧
    ¬ ((lazyNext newLazyReaderState c9Step).2.depth = newLazyReaderState.depth + 1 ∧
       (lazyNext newLazyReaderState c9Step).2.in_sequence = true) := by
  constructor
  · rfl
  · intro hc
    have h1 : (lazyNext newLazyReaderState c9Step).2.depth = 0 := rfl
    rw [h1] at hc
    exact absurd hc.1 (by decide)

/-- C9 (amended): a header with tag `(0008, 0005)` has its marker emitted like
any other header (header plus `get_position()` offset), but it takes its own
match arm before the `SQ` check, so the reader state is left entirely
unchanged even when the header's VR is `SQ`; the depth increment and the
expect-item-header flag apply only to `SQ` headers with a different tag. -/
theorem c9_specific_charset_marker (st : LazyReaderState) (p : LazyStep)
    (hb : st.hard_break = false) (hs : st.in_sequence = false)
    (h : DataElementHeader) (hh : p.headerResult = Except.ok h)
    (htag : h.tag = Tag.mk 0x0008 0x0005) (pos : Nat)
    (hpos : p.position = Except.ok pos) :
    lazyNext st p = (some (Except.ok { header := h, pos := pos }), st) ∧
    (∀ h2, p.headerResult = Except.ok h2 → h2.tag ≠ Tag.mk 0x0008 0x0005 →
      h2.vr = VR.SQ →
      lazyNext st p =
        (some (Except.ok { header := h2, pos := pos }),
          { st with in_sequence := true, depth := st.depth + 1 })) := by
  constructor
  · simp [lazyNext, hb, hs, hh, htag, hpos]
  · intro h2 hh2 htag2 hvr2
    simp [lazyNext, hb, hs, hh2, htag2, hvr2, hpos]

def c9OtherStep : LazyStep :=
  { itemHeaderResult := Except.error (Error.DecoderFailure 0)
    headerResult :=
      Except.ok { tag := Tag.mk 0x0008 0x0005, vr := VR.CS, len := Length.mk 10 }
    position := Except.ok 20 }

/-- Witness for C9 (amended) at a concrete input: a Specific Character Set
header with VR `CS` yields its marker with the reader state unchanged. -/
theorem c9_specific_charset_marker_witness :
    lazyNext newLazyReaderState c9OtherStep =
      (some (Except.ok
        { header := { tag := Tag.mk 0x0008 0x0005, vr := VR.CS, len := Length.mk 10 }
          pos := 20 }),
        newLazyReaderState) := by
  exact (c9_specific_charset_marker newLazyReaderState c9OtherStep rfl rfl
    { tag := Tag.mk 0x0008 0x0005, vr := VR.CS, len := Length.mk 10 } rfl rfl 20 rfl).1

end DicomRs
